import Mathlib

/-!
Verification of the resident process monitor (`process_monitor.py`).

This file gives a shallow embedding of the monitor's core components —
the per-key alert cooldown gate (`should_alert`), the CPU normalizer
(`normalize_cpu_usage`), the threshold evaluators (`check_memory_alerts`,
`check_cpu_alerts`), the notification consolidation functions
(`show_consolidated_notification`, `show_consolidated_cpu_notification`),
the notification display queue (`process_notification_queue` /
`notification_completed` and the timer callback), and the shutdown
reporter (`generate_report`) — and proves the specified properties
about them.

Modelling conventions:
* Python floats (time stamps, thresholds, percentages) are modelled as
  `ℚ` (exact arithmetic; the program performs only +, -, / and
  comparisons on them).
* The `self.alerted_processes` dict (string keys, float values) is
  modelled as an association list `GateState` with `lookupKey` /
  `setKey` mirroring `key in d`, `d[key]` and `d[key] = v`.
* Successive readings of `time.time()` are modelled by a clock stream
  `clock : Nat → ℚ` together with a counter for the number of readings
  taken so far; each call of `should_alert` consumes one reading.
* A metric read from `psutil` that may be absent (`None`) is modelled
  as `Option ℚ`; the Python idiom `x or 0` becomes `Option.getD x 0`
  (`None or 0` and `0.0 or 0` are both `0`).
* Console prints, beeps and the textual content of f-string messages
  carry no verified structure; notifications are modelled by structured
  values carrying exactly the data interpolated into the real strings.
-/

/-! ### The cooldown dictionary (`self.alerted_processes`) -/

/-- The `self.alerted_processes` dict: alert key ↦ time of the last
admitted alert, modelled as an association list. -/
abbrev GateState : Type := List (String × ℚ)

/-- Dict lookup: `self.alerted_processes[key]` (`none` models `key not in d`). -/
def lookupKey : GateState → String → Option ℚ
  | [], _ => none
  | (k, v) :: rest, key => if k = key then some v else lookupKey rest key

/-- Dict assignment `self.alerted_processes[key] = v`: replaces the
binding if present, otherwise adds it. -/
def setKey : GateState → String → ℚ → GateState
  | [], key, v => [(key, v)]
  | (k, w) :: rest, key, v =>
      if k = key then (k, v) :: rest else (k, w) :: setKey rest key v

theorem lookupKey_setKey_self (st : GateState) (key : String) (v : ℚ) :
    lookupKey (setKey st key v) key = some v := by
  induction st with
  | nil => simp [setKey, lookupKey]
  | cons hd tl ih =>
    obtain ⟨k, w⟩ := hd
    by_cases h : k = key
    · simp [setKey, lookupKey, h]
    · simp [setKey, lookupKey, h, ih]

theorem lookupKey_setKey_other (st : GateState) {key key' : String} (v : ℚ)
    (h : key ≠ key') : lookupKey (setKey st key v) key' = lookupKey st key' := by
  induction st with
  | nil => simp [setKey, lookupKey, h]
  | cons hd tl ih =>
    obtain ⟨k, w⟩ := hd
    by_cases hk : k = key
    · subst hk
      simp [setKey, lookupKey, h]
    · simp [setKey, lookupKey, hk, ih]

/-! ### The deduplication gate (`should_alert`) -/

/-- `should_alert` (source lines 95–103).  `now` is the value of
`time.time()` at the moment of the call.  Returns the boolean result
together with the updated `alerted_processes` dict:

    if process_key in self.alerted_processes:
        last_alert = self.alerted_processes[process_key]
        if current_time - last_alert < self.cooldown_period:
            return False
    self.alerted_processes[process_key] = current_time
    return True
-/
def should_alert (cooldown now : ℚ) (key : String) (st : GateState) :
    Bool × GateState :=
  match lookupKey st key with
  | some last =>
      if now - last < cooldown then (false, st)
      else (true, setKey st key now)
  | none => (true, setKey st key now)

theorem should_alert_preserves_other (cooldown now : ℚ) {k key : String}
    (st : GateState) (h : k ≠ key) :
    lookupKey (should_alert cooldown now k st).2 key = lookupKey st key := by
  unfold should_alert
  cases hl : lookupKey st k with
  | none => simp [lookupKey_setKey_other st now h]
  | some last =>
    by_cases hc : now - last < cooldown
    · simp [hc]
    · simp [hc, lookupKey_setKey_other st now h]

theorem should_alert_admit_lookup {cooldown now : ℚ} {key : String}
    {st st' : GateState} (h : should_alert cooldown now key st = (true, st')) :
    lookupKey st' key = some now := by
  unfold should_alert at h
  cases hl : lookupKey st key with
  | none =>
    rw [hl] at h
    cases h
    exact lookupKey_setKey_self st key now
  | some last =>
    rw [hl] at h
    by_cases hc : now - last < cooldown
    · simp [hc] at h
    · simp [hc] at h
      rw [← h]
      exact lookupKey_setKey_self st key now

/-- Running the gate over a sequence of (time, key) calls, pairing each
call with its result. -/
def runGate (cooldown : ℚ) : GateState → List (ℚ × String) →
    List ((ℚ × String) × Bool) × GateState
  | st, [] => ([], st)
  | st, c :: rest =>
      let r := should_alert cooldown c.1 c.2 st
      let res := runGate cooldown r.2 rest
      ((c, r.1) :: res.1, res.2)

/-- While the stored timestamp for `K` is `T` and every call for `K`
happens less than `cooldown` after `T`, every call for `K` is refused
and the stored timestamp stays `T`. -/
theorem runGate_locked (cooldown T : ℚ) (K : String) :
    ∀ (calls : List (ℚ × String)) (st : GateState),
      lookupKey st K = some T →
      (∀ c ∈ calls, c.2 = K → c.1 - T < cooldown) →
      (∀ p ∈ (runGate cooldown st calls).1, p.1.2 = K → p.2 = false) ∧
        lookupKey (runGate cooldown st calls).2 K = some T := by
  intro calls
  induction calls with
  | nil =>
    intro st hst _
    exact ⟨by intro p hp; simp [runGate] at hp, hst⟩
  | cons c rest ih =>
    intro st hst hcalls
    by_cases hk : c.2 = K
    · have hlt : c.1 - T < cooldown := hcalls c (by simp) hk
      have hstep : should_alert cooldown c.1 c.2 st = (false, st) := by
        rw [hk]
        unfold should_alert
        rw [hst]
        simp [hlt]
      have ihr := ih ((should_alert cooldown c.1 c.2 st).2)
        (by rw [hstep]; exact hst)
        (fun d hd => hcalls d (by simp [hd]))
      refine ⟨?_, ihr.2⟩
      intro p hp hpK
      simp only [runGate, List.mem_cons] at hp
      rcases hp with rfl | hp
      · simp [hstep]
      · exact ihr.1 p hp hpK
    · have hpres : lookupKey (should_alert cooldown c.1 c.2 st).2 K = some T := by
        rw [should_alert_preserves_other cooldown c.1 st hk]
        exact hst
      have ihr := ih ((should_alert cooldown c.1 c.2 st).2) hpres
        (fun d hd => hcalls d (by simp [hd]))
      refine ⟨?_, ihr.2⟩
      intro p hp hpK
      simp only [runGate, List.mem_cons] at hp
      rcases hp with rfl | hp
      · exact absurd hpK hk
      · exact ihr.1 p hp hpK

/-! ### The CPU normalizer (`normalize_cpu_usage`) -/

/-- `normalize_cpu_usage` (source lines 105–109).  `cpu_count` is
`self.cpu_count`; the raw value is `Option ℚ` because
`proc['cpu_percent']` may be `None`:

    if raw_cpu_percent is None:
        return 0
    return raw_cpu_percent / self.cpu_count if self.cpu_count > 0 else 0
-/
def normalize_cpu_usage (cpu_count : Int) (raw_cpu_percent : Option ℚ) : ℚ :=
  match raw_cpu_percent with
  | none => 0
  | some r => if cpu_count > 0 then r / (cpu_count : ℚ) else 0

/-! ### Alert keys

`check_memory_alerts` builds the key with the f-string
`f"{proc['pid']}_{proc['name']}"` (source line 130), `check_cpu_alerts`
with `f"cpu_{proc['pid']}_{proc['name']}"` (source line 172), and the
aggregate system-memory alert uses the fixed key `"system_memory"`
(source line 156).  Interpolating the integer pid yields its decimal
representation, i.e. `Nat.repr`. -/

/-- Memory alert key: `f"{pid}_{name}"`. -/
def memKey (pid : Nat) (name : String) : String :=
  Nat.repr pid ++ "_" ++ name

/-- CPU alert key: `f"cpu_{pid}_{name}"`. -/
def cpuKey (pid : Nat) (name : String) : String :=
  "cpu_" ++ Nat.repr pid ++ "_" ++ name

/-! Decimal representation facts needed for key disjointness: the
decimal digits of a `Nat` are nonempty, consist of digit characters
only (hence contain no underscore and start with neither `'c'` nor
`'s'`), and determine the number. -/

/-- Big-endian decimal digit list of a natural number (reference
function used to reason about `Nat.repr`). -/
def natDigits (n : Nat) : List Char :=
  if h : n < 10 then [Nat.digitChar n]
  else
    have : n / 10 < n := Nat.div_lt_self (by omega) (by omega)
    natDigits (n / 10) ++ [Nat.digitChar (n % 10)]

theorem natDigits_lt (n : Nat) (h : n < 10) :
    natDigits n = [Nat.digitChar n] := by
  rw [natDigits]
  simp [h]

theorem natDigits_ge (n : Nat) (h : ¬ n < 10) :
    natDigits n = natDigits (n / 10) ++ [Nat.digitChar (n % 10)] := by
  rw [natDigits]
  simp [h]

theorem toDigitsCore_eq_natDigits :
    ∀ (fuel n : Nat) (ds : List Char), n < fuel →
      Nat.toDigitsCore 10 fuel n ds = natDigits n ++ ds := by
  intro fuel
  induction fuel with
  | zero => intro n ds h; omega
  | succ fuel ih =>
    intro n ds h
    by_cases h10 : n < 10
    · have hdiv : n / 10 = 0 := Nat.div_eq_of_lt h10
      have hmod : n % 10 = n := Nat.mod_eq_of_lt h10
      rw [natDigits_lt n h10]
      simp [Nat.toDigitsCore, hdiv, hmod]
    · have hdiv : n / 10 ≠ 0 := fun h0 => h10 (by omega)
      have hlt : n / 10 < fuel := by
        have : n / 10 < n := Nat.div_lt_self (by omega) (by omega)
        omega
      rw [natDigits_ge n h10]
      simp only [Nat.toDigitsCore, hdiv, if_false]
      rw [ih (n / 10) (Nat.digitChar (n % 10) :: ds) hlt]
      simp

theorem natRepr_data (n : Nat) : (Nat.repr n).data = natDigits n := by
  show (Nat.toDigits 10 n).asString.data = natDigits n
  unfold Nat.toDigits
  rw [toDigitsCore_eq_natDigits (n + 1) n [] (Nat.lt_succ_self n)]
  simp [List.asString]

theorem natDigits_ne_nil (n : Nat) : natDigits n ≠ [] := by
  by_cases h : n < 10
  · rw [natDigits_lt n h]; simp
  · rw [natDigits_ge n h]; simp

theorem digitChar_isDigit {k : Nat} (h : k < 10) :
    (Nat.digitChar k).isDigit = true := by
  interval_cases k <;> decide

theorem natDigits_all_digits (n : Nat) :
    ∀ c ∈ natDigits n, c.isDigit = true := by
  induction n using Nat.strong_induction_on with
  | _ n ih =>
    intro c hc
    by_cases h : n < 10
    · rw [natDigits_lt n h] at hc
      simp at hc
      rw [hc]
      exact digitChar_isDigit h
    · rw [natDigits_ge n h] at hc
      simp at hc
      rcases hc with hc | hc
      · exact ih (n / 10) (Nat.div_lt_self (by omega) (by omega)) c hc
      · rw [hc]
        exact digitChar_isDigit (Nat.mod_lt n (by omega))

theorem digitChar_inj {a b : Nat} (ha : a < 10) (hb : b < 10)
    (h : Nat.digitChar a = Nat.digitChar b) : a = b := by
  interval_cases a <;> interval_cases b <;> first | rfl | exact absurd h (by decide)

theorem natDigits_inj : ∀ m n : Nat, natDigits m = natDigits n → m = n := by
  intro m
  induction m using Nat.strong_induction_on with
  | _ m ih =>
    intro n h
    by_cases hm : m < 10 <;> by_cases hn : n < 10
    · rw [natDigits_lt m hm, natDigits_lt n hn] at h
      simp at h
      exact digitChar_inj hm hn h
    · exfalso
      rw [natDigits_lt m hm, natDigits_ge n hn] at h
      have hlen := congrArg List.length h
      simp only [List.length_append, List.length_cons, List.length_nil] at hlen
      have h0 : natDigits (n / 10) = [] := List.length_eq_zero.mp (by omega)
      exact natDigits_ne_nil _ h0
    · exfalso
      rw [natDigits_ge m hm, natDigits_lt n hn] at h
      have hlen := congrArg List.length h
      simp only [List.length_append, List.length_cons, List.length_nil] at hlen
      have h0 : natDigits (m / 10) = [] := List.length_eq_zero.mp (by omega)
      exact natDigits_ne_nil _ h0
    · rw [natDigits_ge m hm, natDigits_ge n hn] at h
      obtain ⟨h1, h2⟩ := List.append_inj' h (by simp)
      have hdiv : m / 10 = n / 10 :=
        ih (m / 10) (Nat.div_lt_self (by omega) (by omega)) (n / 10) h1
      have hmod : m % 10 = n % 10 := by
        apply digitChar_inj (Nat.mod_lt m (by omega)) (Nat.mod_lt n (by omega))
        simpa using h2
      omega

theorem natRepr_inj {m n : Nat} (h : Nat.repr m = Nat.repr n) : m = n := by
  apply natDigits_inj
  rw [← natRepr_data, ← natRepr_data, h]

theorem string_data_append (s t : String) : (s ++ t).data = s.data ++ t.data := by
  cases s; cases t; rfl

theorem string_ext {s t : String} (h : s.data = t.data) : s = t := by
  cases s; cases t; exact congrArg String.mk h

theorem natRepr_no_underscore (n : Nat) : '_' ∉ (Nat.repr n).data := by
  rw [natRepr_data]
  intro h
  have := natDigits_all_digits n _ h
  exact absurd this (by decide)

theorem natDigits_no_underscore (n : Nat) : '_' ∉ natDigits n := by
  intro h
  have := natDigits_all_digits n _ h
  exact absurd this (by decide)

/-- A character list followed by an underscore-separated suffix splits
uniquely when the head part contains no underscore. -/
theorem splitAtUnderscore :
    ∀ (l1 l2 r1 r2 : List Char), '_' ∉ l1 → '_' ∉ l2 →
      l1 ++ '_' :: r1 = l2 ++ '_' :: r2 → l1 = l2 ∧ r1 = r2 := by
  intro l1
  induction l1 with
  | nil =>
    intro l2 r1 r2 _ h2 h
    cases l2 with
    | nil => simpa using h
    | cons b t =>
      exfalso
      simp at h
      exact h2 (by rw [← h.1]; exact List.mem_cons_self '_' t)
  | cons a s ih =>
    intro l2 r1 r2 h1 h2 h
    cases l2 with
    | nil =>
      exfalso
      simp at h
      exact h1 (by rw [h.1]; exact List.mem_cons_self '_' s)
    | cons b t =>
      simp at h
      obtain ⟨hab, hrest⟩ := h
      have hr := ih t r1 r2 (fun hm => h1 (List.mem_cons_of_mem a hm))
        (fun hm => h2 (List.mem_cons_of_mem b hm)) hrest
      exact ⟨by rw [hab, hr.1], hr.2⟩

theorem memKey_data (pid : Nat) (name : String) :
    (memKey pid name).data = natDigits pid ++ '_' :: name.data := by
  unfold memKey
  rw [string_data_append, string_data_append, natRepr_data]
  simp

theorem cpuKey_data (pid : Nat) (name : String) :
    (cpuKey pid name).data =
      'c' :: 'p' :: 'u' :: '_' :: (natDigits pid ++ '_' :: name.data) := by
  unfold cpuKey
  rw [string_data_append, string_data_append, string_data_append, natRepr_data]
  simp

/-- Memory keys are injective in `(pid, name)`. -/
theorem memKey_inj {p1 p2 : Nat} {n1 n2 : String} :
    memKey p1 n1 = memKey p2 n2 ↔ p1 = p2 ∧ n1 = n2 := by
  constructor
  · intro h
    have hd := congrArg String.data h
    rw [memKey_data, memKey_data] at hd
    have hs := splitAtUnderscore _ _ _ _
      (natDigits_no_underscore p1) (natDigits_no_underscore p2) hd
    exact ⟨natDigits_inj _ _ hs.1, string_ext hs.2⟩
  · rintro ⟨rfl, rfl⟩
    rfl

/-- CPU keys are injective in `(pid, name)`. -/
theorem cpuKey_inj {p1 p2 : Nat} {n1 n2 : String} :
    cpuKey p1 n1 = cpuKey p2 n2 ↔ p1 = p2 ∧ n1 = n2 := by
  constructor
  · intro h
    have hd := congrArg String.data h
    rw [cpuKey_data, cpuKey_data] at hd
    simp only [List.cons.injEq, true_and] at hd
    have hs := splitAtUnderscore _ _ _ _
      (natDigits_no_underscore p1) (natDigits_no_underscore p2) hd
    exact ⟨natDigits_inj _ _ hs.1, string_ext hs.2⟩
  · rintro ⟨rfl, rfl⟩
    rfl

theorem memKey_head (pid : Nat) (name : String) :
    ∃ c t, (memKey pid name).data = c :: t ∧ c.isDigit = true := by
  rw [memKey_data]
  cases hd : natDigits pid with
  | nil => exact absurd hd (natDigits_ne_nil pid)
  | cons c t =>
    refine ⟨c, t ++ '_' :: name.data, by simp, ?_⟩
    exact natDigits_all_digits pid c (by rw [hd]; exact List.mem_cons_self c t)

/-- A memory key is never a CPU key (a decimal digit is not `'c'`). -/
theorem memKey_ne_cpuKey (p1 : Nat) (n1 : String) (p2 : Nat) (n2 : String) :
    memKey p1 n1 ≠ cpuKey p2 n2 := by
  intro h
  obtain ⟨c, t, hdata, hdig⟩ := memKey_head p1 n1
  have hd := congrArg String.data h
  rw [hdata, cpuKey_data] at hd
  have hc : c = 'c' := by injection hd
  rw [hc] at hdig
  exact absurd hdig (by decide)

/-- A memory key is never the fixed system key (a digit is not `'s'`). -/
theorem memKey_ne_system (pid : Nat) (name : String) :
    memKey pid name ≠ "system_memory" := by
  intro h
  obtain ⟨c, t, hdata, hdig⟩ := memKey_head pid name
  have hd := congrArg String.data h
  rw [hdata] at hd
  have hd2 : c :: t = 's' :: "ystem_memory".data := hd
  have hc : c = 's' := by injection hd2
  rw [hc] at hdig
  exact absurd hdig (by decide)

/-- A CPU key is never the fixed system key (`'c' ≠ 's'`). -/
theorem cpuKey_ne_system (pid : Nat) (name : String) :
    cpuKey pid name ≠ "system_memory" := by
  intro h
  have hd := congrArg String.data h
  rw [cpuKey_data] at hd
  simp at hd

/-! ### Process samples, configuration and alert records -/

/-- One entry of the snapshot produced by `get_process_info` (the dict
from `psutil.process_iter(['pid', 'name', 'memory_percent',
'cpu_percent', 'memory_info'])`).  `memory_percent` and `cpu_percent`
may be `None`; `memory_rss` is `proc['memory_info'].rss` and is absent
when `memory_info` is `None` (the code guards every `.rss` access with
`if proc['memory_info'] else 0`). -/
structure ProcInfo where
  pid : Nat
  name : String
  memory_percent : Option ℚ
  cpu_percent : Option ℚ
  memory_rss : Option ℚ
deriving DecidableEq

/-- The monitor's configuration fields used by the evaluators
(`AdvancedProcessMonitor.__init__`), plus `self.cpu_count`. -/
structure Config where
  alert_threshold : ℚ
  cpu_alert_threshold : ℚ
  cooldown_period : ℚ
  cpu_count : Int
deriving DecidableEq

/-- The `alert_data` dict built in `check_memory_alerts` (source lines
137–144).  The `timestamp` (wall-clock `datetime.now().isoformat()`)
and the f-string `message` carry no verified structure and are not
modelled; the remaining fields are. -/
structure MemAlert where
  process_name : String
  pid : Nat
  memory_usage_percent : ℚ
  memory_usage_mb : ℚ
deriving DecidableEq

/-- The `alert_data` dict built in `check_cpu_alerts` (source lines
179–186), with `timestamp` and `message` unmodelled as above. -/
structure CpuAlert where
  process_name : String
  pid : Nat
  cpu_usage_percent : ℚ
  memory_usage_mb : ℚ
deriving DecidableEq

/-- `memory_info.rss / 1024 / 1024 if memory_info else 0`. -/
def memoryMb (rss : Option ℚ) : ℚ :=
  match rss with
  | some r => r / 1024 / 1024
  | none => 0

/-! ### Consolidated notifications -/

/-- The toast shown by `show_consolidated_notification` (source lines
63–93): either the detailed single-alert form (title "High Memory
Usage!", body naming the process, its percentage and MB), or the
consolidated form (title stating the count, body listing the first
three alerts' name/percent pairs, and an "... and k more" suffix).
The structured fields are exactly the data interpolated into the
f-strings. -/
inductive MemNotification where
  | single (process_name : String) (memory_usage_percent memory_usage_mb : ℚ)
  | multi (count : Nat) (entries : List (String × ℚ)) (extra : Option Nat)
deriving DecidableEq

/-- `show_consolidated_notification` (source lines 63–93).  Returns the
toast displayed (`none` for an empty batch: the function returns before
calling `show_toast`).  The beep and the `try/except` around the
platform call are not modelled (a display failure only changes whether
the toast is seen, not what was requested). -/
def show_consolidated_notification : List MemAlert → Option MemNotification
  | [] => none
  | [a] => some (.single a.process_name a.memory_usage_percent a.memory_usage_mb)
  | alerts =>
      some (.multi alerts.length
        ((alerts.take 3).map fun a => (a.process_name, a.memory_usage_percent))
        (if alerts.length > 3 then some (alerts.length - 3) else none))

/-- The toast shown by `show_consolidated_cpu_notification` (source
lines 227–257), structured as for the memory variant. -/
inductive CpuNotification where
  | single (process_name : String) (cpu_usage_percent : ℚ)
  | multi (count : Nat) (entries : List (String × ℚ)) (extra : Option Nat)
deriving DecidableEq

/-- `show_consolidated_cpu_notification` (source lines 227–257). -/
def show_consolidated_cpu_notification : List CpuAlert → Option CpuNotification
  | [] => none
  | [a] => some (.single a.process_name a.cpu_usage_percent)
  | alerts =>
      some (.multi alerts.length
        ((alerts.take 3).map fun a => (a.process_name, a.cpu_usage_percent))
        (if alerts.length > 3 then some (alerts.length - 3) else none))

/-! ### The threshold evaluators -/

/-- The `for proc in processes:` loop of `check_memory_alerts` (source
lines 127–148).  `clock` is the stream of successive `time.time()`
readings and `k` the number of readings already taken; each
`should_alert` call consumes one reading.  Returns the accumulated
`alerts` list (the source's `alerts` and `current_alerts` receive
exactly the same appends and are one list here), the updated cooldown
dict and the clock position. -/
def checkMemLoop (cfg : Config) (clock : Nat → ℚ) :
    List ProcInfo → GateState → Nat → List MemAlert × GateState × Nat
  | [], st, k => ([], st, k)
  | p :: rest, st, k =>
      let memory_usage := p.memory_percent.getD 0
      if memory_usage > cfg.alert_threshold then
        let r := should_alert cfg.cooldown_period (clock k) (memKey p.pid p.name) st
        if r.1 then
          let alert : MemAlert :=
            ⟨p.name, p.pid, memory_usage, memoryMb p.memory_rss⟩
          let res := checkMemLoop cfg clock rest r.2 (k + 1)
          (alert :: res.1, res.2)
        else checkMemLoop cfg clock rest r.2 (k + 1)
      else checkMemLoop cfg clock rest st k

/-- Result of one `check_memory_alerts` call: the returned `alerts`
list, the consolidated toast (if any), whether the system-level
critical-memory notification was dispatched, and the final cooldown
dict / clock position. -/
structure MemCheckResult where
  alerts : List MemAlert
  note : Option MemNotification
  system_notified : Bool
  st : GateState
  tick : Nat
deriving DecidableEq

/-- `check_memory_alerts` (source lines 121–161).
`system_memory_percent` is `psutil.virtual_memory().percent`.  After
the per-process loop the function shows one consolidated notification
when any alert was admitted, then handles the aggregate system-memory
alert through the same gate under the fixed key `"system_memory"` and
fixed threshold `85`; that branch only prints and dispatches a
`show_notification` toast (recorded in `system_notified`) — it appends
nothing to the returned `alerts` list. -/
def check_memory_alerts (cfg : Config) (clock : Nat → ℚ)
    (procs : List ProcInfo) (system_memory_percent : ℚ)
    (st : GateState) (k : Nat) : MemCheckResult :=
  let res := checkMemLoop cfg clock procs st k
  let note := if res.1.isEmpty then none else show_consolidated_notification res.1
  if system_memory_percent > 85 then
    let r := should_alert cfg.cooldown_period (clock res.2.2) "system_memory" res.2.1
    ⟨res.1, note, r.1, r.2, res.2.2 + 1⟩
  else
    ⟨res.1, note, false, res.2.1, res.2.2⟩

/-- Python's `str.lower()` (character-wise lowercasing; equal to
`String.toLower`, but defined directly on the character list so that it
evaluates by kernel reduction). -/
def strToLower (s : String) : String := ⟨s.data.map Char.toLower⟩

/-- The `for proc in processes:` loop of `check_cpu_alerts` (source
lines 163–196): a process is a candidate iff its normalized CPU usage
exceeds the threshold and its name, lowercased, is not
`"system idle process"`. -/
def checkCpuLoop (cfg : Config) (clock : Nat → ℚ) :
    List ProcInfo → GateState → Nat → List CpuAlert × GateState × Nat
  | [], st, k => ([], st, k)
  | p :: rest, st, k =>
      let cpu_usage := normalize_cpu_usage cfg.cpu_count (some (p.cpu_percent.getD 0))
      if cpu_usage > cfg.cpu_alert_threshold ∧ strToLower p.name ≠ "system idle process" then
        let r := should_alert cfg.cooldown_period (clock k) (cpuKey p.pid p.name) st
        if r.1 then
          let alert : CpuAlert :=
            ⟨p.name, p.pid, cpu_usage, memoryMb p.memory_rss⟩
          let res := checkCpuLoop cfg clock rest r.2 (k + 1)
          (alert :: res.1, res.2)
        else checkCpuLoop cfg clock rest r.2 (k + 1)
      else checkCpuLoop cfg clock rest st k

/-- Result of one `check_cpu_alerts` call. -/
structure CpuCheckResult where
  alerts : List CpuAlert
  note : Option CpuNotification
  st : GateState
  tick : Nat
deriving DecidableEq

/-- `check_cpu_alerts` (source lines 163–196). -/
def check_cpu_alerts (cfg : Config) (clock : Nat → ℚ)
    (procs : List ProcInfo) (st : GateState) (k : Nat) : CpuCheckResult :=
  let res := checkCpuLoop cfg clock procs st k
  let note := if res.1.isEmpty then none else show_consolidated_cpu_notification res.1
  ⟨res.1, note, res.2.1, res.2.2⟩

/-! ### The notification display queue

`show_notification` (source lines 23–34) appends a `(title, message,
duration)` triple to `self.notification_queue` and calls
`process_notification_queue` (lines 36–56), which — unless a
notification is already being shown — pops the head of the queue,
displays it, and schedules `notification_completed` (lines 58–61) via
`threading.Timer(duration + 1, ...)`; that callback clears
`is_showing_notification` and drains the next queued request.  The
consolidated alert toasts (`show_consolidated_notification`,
`show_consolidated_cpu_notification`) call `toaster.show_toast`
directly, without touching the queue or the flag.

The machine below models this: events (a `show_notification` call, a
`show_consolidated_notification` call, the timer callback firing) are
applied atomically at explicit times.  `displays` logs every
`show_toast` call as (start time, toast duration); `shown_reqs` logs
the queue-path requests in display order.  A trace is valid when event
times are non-decreasing and the timer event fires exactly at its
scheduled time (`duration + 1` after the display), with no event jumping
past a pending timer. -/

/-- A queued `(title, message, duration)` triple (the source's default
duration is 5). -/
structure NotifReq where
  title : String
  message : String
  duration : ℚ
deriving DecidableEq

/-- The dispatcher's mutable state (`self.notification_queue`,
`self.is_showing_notification`), the pending `threading.Timer` (absolute
firing time), and the two observation logs. -/
structure DispState where
  notification_queue : List NotifReq
  is_showing_notification : Bool
  timer : Option ℚ
  displays : List (ℚ × ℚ)
  shown_reqs : List NotifReq
deriving DecidableEq

/-- Fresh dispatcher state (`__init__`). -/
def initDisp : DispState := ⟨[], false, none, [], []⟩

/-- `process_notification_queue` (source lines 36–56), invoked at time
`now`: returns unchanged when a notification is showing or the queue is
empty; otherwise pops the head, shows it (logged in `displays` /
`shown_reqs`) and schedules the completion timer at `now + duration + 1`. -/
def process_notification_queue (now : ℚ) (s : DispState) : DispState :=
  if s.is_showing_notification then s
  else
    match s.notification_queue with
    | [] => s
    | req :: rest =>
        { notification_queue := rest
          is_showing_notification := true
          timer := some (now + req.duration + 1)
          displays := s.displays ++ [(now, req.duration)]
          shown_reqs := s.shown_reqs ++ [req] }

/-- `show_notification` (source lines 23–34): enqueue, then process. -/
def show_notification (now : ℚ) (req : NotifReq) (s : DispState) : DispState :=
  process_notification_queue now
    { s with notification_queue := s.notification_queue ++ [req] }

/-- `notification_completed` (source lines 58–61): the timer callback
clears the flag and drains the queue. -/
def notification_completed (now : ℚ) (s : DispState) : DispState :=
  process_notification_queue now
    { s with is_showing_notification := false, timer := none }

/-- External events applied to the dispatcher. -/
inductive DispEvent where
  | send (req : NotifReq)
  | sendConsolidated (alerts : List MemAlert)
  | timerFired
deriving DecidableEq

/-- One event applied at time `now`.  A `sendConsolidated` with a
nonempty batch calls `show_toast` directly with `duration=7` (source
line 88), bypassing the queue and the `is_showing_notification` flag. -/
def dispStep (now : ℚ) : DispEvent → DispState → DispState
  | .send req, s => show_notification now req s
  | .sendConsolidated alerts, s =>
      match show_consolidated_notification alerts with
      | none => s
      | some _ => { s with displays := s.displays ++ [(now, 7)] }
  | .timerFired, s => notification_completed now s

/-- Run a timed event list. -/
def dispRun (s : DispState) : List (ℚ × DispEvent) → DispState
  | [] => s
  | (t, e) :: rest => dispRun (dispStep t e s) rest

/-- Trace validity from time `now` in state `s`: times are
non-decreasing, `timerFired` occurs exactly at the scheduled time and
only when a timer is pending, and no other event is later than a
pending timer (the timer would have fired first). -/
def validTrace (now : ℚ) (s : DispState) : List (ℚ × DispEvent) → Bool
  | [] => true
  | (t, e) :: rest =>
      decide (now ≤ t) &&
      (match e, s.timer with
       | .timerFired, some tf => decide (t = tf)
       | .timerFired, none => false
       | _, some tf => decide (t ≤ tf)
       | _, none => true) &&
      validTrace t (dispStep t e s) rest

/-- A toast (start, duration) is on screen at time `t`. -/
def activeAt (t : ℚ) (d : ℚ × ℚ) : Prop :=
  d.1 ≤ t ∧ t ≤ d.1 + d.2

/-- The queue-path `send` requests of a trace, in submission order. -/
def sentReqs : List (ℚ × DispEvent) → List NotifReq
  | [] => []
  | (_, .send r) :: rest => r :: sentReqs rest
  | _ :: rest => sentReqs rest

/-- Whether an event is a consolidated-toast dispatch. -/
def isConsolidatedEv : DispEvent → Bool
  | .sendConsolidated _ => true
  | _ => false

/-! ### The shutdown reporter (`generate_report`) -/

/-- The summary printed by `generate_report` (source lines 313–329):
alert counts and the last five records of each log (`log[-5:]`). -/
structure ReportSummary where
  total_memory_alerts : Nat
  total_cpu_alerts : Nat
  recent_memory_alerts : List MemAlert
  recent_cpu_alerts : List CpuAlert
deriving DecidableEq

/-- `generate_report` (source lines 313–337).  The two
`with open(...) / json.dump(...)` blocks are modelled by their outcomes
`writeMemFile` / `writeCpuFile`.  The function prints the summary, then
writes `memory_alerts.json`, then `cpu_alerts.json`.  There is no
`try/except` around the writes: a failure aborts the function at that
point — the result records the summary (already printed), the files
successfully written in order, and the final outcome (`Except.error e`
models the exception propagating out of `generate_report`; no caller in
`run_monitor` or the `__main__` block catches it). -/
def generate_report (memLog : List MemAlert) (cpuLog : List CpuAlert)
    (writeMemFile writeCpuFile : Except String Unit) :
    ReportSummary × List String × Except String Unit :=
  let summary : ReportSummary :=
    ⟨memLog.length, cpuLog.length,
      memLog.drop (memLog.length - 5), cpuLog.drop (cpuLog.length - 5)⟩
  match writeMemFile with
  | .error e => (summary, [], .error e)
  | .ok _ =>
      match writeCpuFile with
      | .error e => (summary, ["memory_alerts.json"], .error e)
      | .ok _ => (summary, ["memory_alerts.json", "cpu_alerts.json"], .ok ())

/-! ## Claims -/

/-- C1: For every key `K`, cooldown `C` and call sequence: once an
alert for `K` is admitted at time `T`, every later gate call for `K` at
a time `T'` with `T' - T < C` returns `false` and leaves the stored
timestamp at `T` — the window is measured from the last admitted alert,
and suppressed attempts never update the timestamp. -/
theorem cooldown_window_locked (C T : ℚ) (K : String) (st0 st1 : GateState)
    (calls : List (ℚ × String))
    (hgrant : should_alert C T K st0 = (true, st1))
    (hwin : ∀ c ∈ calls, c.2 = K → c.1 - T < C) :
    (∀ p ∈ (runGate C st1 calls).1, p.1.2 = K → p.2 = false) ∧
      lookupKey (runGate C st1 calls).2 K = some T :=
  runGate_locked C T K calls st1 (should_alert_admit_lookup hgrant) hwin

/-- C1 witness: cooldown 30, key admitted at time 0; the calls at times
5 and 29 for the same key are refused (the third result shown) and the
stored timestamp is still 0, even though an unrelated key was admitted
in between. -/
theorem cooldown_window_locked_witness :
    (((runGate 30 [("1_python", (0 : ℚ))]
        [((5 : ℚ), "1_python"), ((10 : ℚ), "2_java"), ((29 : ℚ), "1_python")]).1.getD 2
        (((0 : ℚ), ""), true)).2 = false) ∧
      lookupKey (runGate 30 [("1_python", (0 : ℚ))]
        [((5 : ℚ), "1_python"), ((10 : ℚ), "2_java"), ((29 : ℚ), "1_python")]).2
        "1_python" = some 0 := by
  have hgrant : should_alert 30 0 "1_python" [] = (true, [("1_python", (0 : ℚ))]) := by
    simp [should_alert, lookupKey, setKey]
  have hwin : ∀ c ∈ [((5 : ℚ), "1_python"), ((10 : ℚ), "2_java"),
      ((29 : ℚ), "1_python")], c.2 = "1_python" → c.1 - 0 < 30 := by
    intro c hc
    fin_cases hc <;> intro _ <;> norm_num
  have h := cooldown_window_locked 30 0 "1_python" [] [("1_python", 0)]
    [((5 : ℚ), "1_python"), ((10 : ℚ), "2_java"), ((29 : ℚ), "1_python")]
    hgrant hwin
  refine ⟨h.1 _ ?_ ?_, h.2⟩
  · show _ ∈ (runGate 30 [("1_python", (0 : ℚ))] _).1
    simp [runGate, should_alert, lookupKey, setKey]
  · simp [runGate, should_alert, lookupKey, setKey]

/-- C8: `normalize_cpu_usage` returns 0 whenever the logical core count
is ≤ 0 (no division, no exception), returns 0 for an absent raw value,
and otherwise divides the raw value by the core count.  It is a pure
function (the embedding is total), so there are no side effects. -/
theorem normalize_cpu_usage_spec (raw : Option ℚ) (cores : Int) :
    (cores ≤ 0 → normalize_cpu_usage cores raw = 0) ∧
      (raw = none → normalize_cpu_usage cores raw = 0) ∧
      ∀ r : ℚ, raw = some r → 0 < cores →
        normalize_cpu_usage cores raw = r / (cores : ℚ) := by
  refine ⟨?_, ?_, ?_⟩
  · intro h
    cases raw with
    | none => rfl
    | some r => simp [normalize_cpu_usage, not_lt.mpr h]
  · intro h
    rw [h]
    rfl
  · intro r hr hpos
    rw [hr]
    simp [normalize_cpu_usage, hpos]

/-- C8 witness: a non-positive core count yields 0, an absent reading
yields 0, and 4 cores turn a raw 390% into 97.5%. -/
theorem normalize_cpu_usage_spec_witness :
    normalize_cpu_usage (-2) (some 50) = 0 ∧
      normalize_cpu_usage 4 none = 0 ∧
      normalize_cpu_usage 4 (some 390) = 390 / 4 :=
  ⟨(normalize_cpu_usage_spec (some 50) (-2)).1 (by decide),
    (normalize_cpu_usage_spec none 4).2.1 rfl,
    (normalize_cpu_usage_spec (some 390) 4).2.2 390 rfl (by decide)⟩

/-- C7: the cooldown key encoding is injective across alert subjects:
memory keys agree only on equal (pid, name), CPU keys agree only on
equal (pid, name), a memory key is never a CPU key, and neither ever
equals the fixed system key `"system_memory"`. -/
theorem alert_keys_injective (p1 : Nat) (n1 : String) (p2 : Nat) (n2 : String) :
    (memKey p1 n1 = memKey p2 n2 ↔ p1 = p2 ∧ n1 = n2) ∧
      (cpuKey p1 n1 = cpuKey p2 n2 ↔ p1 = p2 ∧ n1 = n2) ∧
      memKey p1 n1 ≠ cpuKey p2 n2 ∧
      memKey p1 n1 ≠ "system_memory" ∧
      cpuKey p1 n1 ≠ "system_memory" :=
  ⟨memKey_inj, cpuKey_inj, memKey_ne_cpuKey p1 n1 p2 n2,
    memKey_ne_system p1 n1, cpuKey_ne_system p1 n1⟩

/-- C7 witness: concrete key separations for pid 7 / name "chrome". -/
theorem alert_keys_injective_witness :
    memKey 7 "chrome" ≠ cpuKey 7 "chrome" ∧
      memKey 7 "chrome" ≠ "system_memory" ∧
      cpuKey 7 "chrome" ≠ "system_memory" :=
  ⟨(alert_keys_injective 7 "chrome" 7 "chrome").2.2.1,
    (alert_keys_injective 7 "chrome" 7 "chrome").2.2.2.1,
    (alert_keys_injective 7 "chrome" 7 "chrome").2.2.2.2⟩

/-- Spec-side predicate (from the spec's words for the dispatcher):
the listed entries are sorted by metric value descending. -/
def specDescendingByValue (entries : List (String × ℚ)) : Prop :=
  entries.Chain' fun x y => y.2 ≤ x.2

/-- C2 counterexample: two admitted records with values 1 and 2 (in that
admission order) are listed as [("a", 1), ("b", 2)] — the first
`min(N,3)` records in admission order, not sorted by metric value
descending as the claim states (no sort occurs in the notification
path; only the console display functions sort). -/
theorem consolidation_order_counterexample :
    show_consolidated_notification
        [⟨"a", 1, 1, 0⟩, ⟨"b", 2, 2, 0⟩] =
      some (.multi 2 [("a", 1), ("b", 2)] none) ∧
      ¬ specDescendingByValue [("a", 1), ("b", 2)] := by
  constructor
  · rfl
  · intro h
    unfold specDescendingByValue at h
    have := List.chain'_cons.mp h
    exact absurd this.1 (by norm_num)

/-- C2 (amended): for N ≥ 2 admitted records of one metric family in
one cycle, the dispatcher produces exactly one consolidated
notification whose title states the count N, whose body lists exactly
`min(N,3)` entries — the first `min(N,3)` records in admission order
(not sorted by metric value) — followed by an "and N−3 more" suffix iff
N > 3.  Both metric families behave identically. -/
theorem consolidation_spec (as : List MemAlert) (cs : List CpuAlert)
    (has : 2 ≤ as.length) (hcs : 2 ≤ cs.length) :
    (show_consolidated_notification as =
        some (.multi as.length
          ((as.take 3).map fun a => (a.process_name, a.memory_usage_percent))
          (if 3 < as.length then some (as.length - 3) else none)) ∧
      ((as.take 3).map fun a => (a.process_name, a.memory_usage_percent)).length =
        min as.length 3) ∧
    (show_consolidated_cpu_notification cs =
        some (.multi cs.length
          ((cs.take 3).map fun a => (a.process_name, a.cpu_usage_percent))
          (if 3 < cs.length then some (cs.length - 3) else none)) ∧
      ((cs.take 3).map fun a => (a.process_name, a.cpu_usage_percent)).length =
        min cs.length 3) := by
  constructor
  · match as, has with
    | a :: b :: t, _ =>
      refine ⟨rfl, ?_⟩
      simp only [List.length_map, List.length_take, List.length_cons]
      omega
  · match cs, hcs with
    | a :: b :: t, _ =>
      refine ⟨rfl, ?_⟩
      simp only [List.length_map, List.length_take, List.length_cons]
      omega

/-- C2 witness: four memory records give one notification titled with
count 4, listing the first three entries, with an "and 1 more" suffix;
two CPU records give one notification with both entries and no suffix. -/
theorem consolidation_spec_witness :
    show_consolidated_notification
        [⟨"a", 1, 9, 0⟩, ⟨"b", 2, 8, 0⟩, ⟨"c", 3, 7, 0⟩, ⟨"d", 4, 6, 0⟩] =
      some (.multi 4 [("a", 9), ("b", 8), ("c", 7)] (some 1)) ∧
      show_consolidated_cpu_notification
        [⟨"x", 5, 40, 0⟩, ⟨"y", 6, 30, 0⟩] =
      some (.multi 2 [("x", 40), ("y", 30)] none) := by
  have h := consolidation_spec
    [⟨"a", 1, 9, 0⟩, ⟨"b", 2, 8, 0⟩, ⟨"c", 3, 7, 0⟩, ⟨"d", 4, 6, 0⟩]
    [⟨"x", 5, 40, 0⟩, ⟨"y", 6, 30, 0⟩] (by decide) (by decide)
  exact ⟨h.1.1, h.2.1⟩

theorem normalize_some_zero (c : Int) : normalize_cpu_usage c (some 0) = 0 := by
  unfold normalize_cpu_usage
  by_cases h : c > 0 <;> simp [h]

/-- Every record emitted by the `check_cpu_alerts` loop belongs to a
non-idle process whose normalized CPU value exceeds the threshold. -/
theorem checkCpuLoop_sound (cfg : Config) (clock : Nat → ℚ) :
    ∀ (procs : List ProcInfo) (st : GateState) (k : Nat),
      ∀ r ∈ (checkCpuLoop cfg clock procs st k).1,
        strToLower r.process_name ≠ "system idle process" ∧
          cfg.cpu_alert_threshold < r.cpu_usage_percent := by
  intro procs
  induction procs with
  | nil => intro st k r hr; simp [checkCpuLoop] at hr
  | cons p rest ih =>
    intro st k r hr
    simp only [checkCpuLoop] at hr
    split_ifs at hr with hcond hadm
    · rcases List.mem_cons.mp hr with rfl | hmem
      · exact ⟨hcond.2, hcond.1⟩
      · exact ih _ _ r hmem
    · exact ih _ _ r hr
    · exact ih _ _ r hr

/-- With a fresh key, a single non-idle process is admitted exactly
when its normalized CPU value exceeds the threshold. -/
theorem checkCpu_singleton (cfg : Config) (clock : Nat → ℚ) (p : ProcInfo)
    (st : GateState) (k : Nat)
    (hidle : strToLower p.name ≠ "system idle process")
    (hfresh : lookupKey st (cpuKey p.pid p.name) = none) :
    ((check_cpu_alerts cfg clock [p] st k).alerts ≠ [] ↔
      cfg.cpu_alert_threshold <
        normalize_cpu_usage cfg.cpu_count (some (p.cpu_percent.getD 0))) := by
  by_cases hbr : cfg.cpu_alert_threshold <
      normalize_cpu_usage cfg.cpu_count (some (p.cpu_percent.getD 0))
  · have hadm : should_alert cfg.cooldown_period (clock k) (cpuKey p.pid p.name) st
        = (true, setKey st (cpuKey p.pid p.name) (clock k)) := by
      unfold should_alert
      rw [hfresh]
    simp [check_cpu_alerts, checkCpuLoop, hbr, hidle, hadm]
  · simp [check_cpu_alerts, checkCpuLoop, hbr]

/-- C9: a process whose name case-insensitively equals the idle-process
sentinel never yields a CPU alert record, whatever its CPU reading and
whatever the pass (first conjunct: every emitted record is non-idle and
over threshold); any other process, evaluated with a fresh key, yields
a record exactly when its normalized CPU value exceeds the threshold
(second conjunct). -/
theorem cpu_idle_sentinel_spec (cfg : Config) (clock : Nat → ℚ) :
    (∀ (procs : List ProcInfo) (st : GateState) (k : Nat),
      ∀ r ∈ (check_cpu_alerts cfg clock procs st k).alerts,
        strToLower r.process_name ≠ "system idle process" ∧
          cfg.cpu_alert_threshold < r.cpu_usage_percent) ∧
    ∀ (p : ProcInfo) (st : GateState) (k : Nat),
      strToLower p.name ≠ "system idle process" →
      lookupKey st (cpuKey p.pid p.name) = none →
      ((check_cpu_alerts cfg clock [p] st k).alerts ≠ [] ↔
        cfg.cpu_alert_threshold <
          normalize_cpu_usage cfg.cpu_count (some (p.cpu_percent.getD 0))) := by
  constructor
  · intro procs st k r hr
    exact checkCpuLoop_sound cfg clock procs st k r hr
  · intro p st k hidle hfresh
    exact checkCpu_singleton cfg clock p st k hidle hfresh

/-- C9 witness: on a 4-core config with threshold 15, an idle-sentinel
process at 390% raw CPU yields no record, while "python3" at the same
reading yields one. -/
theorem cpu_idle_sentinel_spec_witness :
    (check_cpu_alerts ⟨2, 15, 30, 4⟩ (fun _ => 100)
        [⟨0, "System Idle Process", some 0, some 390, none⟩] [] 0).alerts = [] ∧
      (check_cpu_alerts ⟨2, 15, 30, 4⟩ (fun _ => 100)
        [⟨42, "python3", some 0, some 390, none⟩] [] 0).alerts ≠ [] := by
  constructor
  · simp [check_cpu_alerts, checkCpuLoop,
      show strToLower "System Idle Process" = "system idle process" from by decide]
  · have h := (cpu_idle_sentinel_spec ⟨2, 15, 30, 4⟩ (fun _ => 100)).2
      ⟨42, "python3", some 0, some 390, none⟩ [] 0 (by decide) (by simp [lookupKey])
    apply h.mpr
    show (15 : ℚ) < normalize_cpu_usage 4 (some 390)
    rw [(normalize_cpu_usage_spec (some 390) 4).2.2 390 rfl (by decide)]
    norm_num

/-- C10: an absent (`None`) memory or CPU reading is treated as 0 by
the evaluators (`proc['memory_percent'] or 0`, `proc['cpu_percent'] or
0`), so for any strictly positive threshold the affected process yields
no record for that metric; the evaluation is a total function, so it
never raises. -/
theorem absent_metric_no_alert (cfg : Config) (clock : Nat → ℚ)
    (p : ProcInfo) (st : GateState) (k : Nat) (fraction : ℚ) :
    (p.memory_percent = none → 0 < cfg.alert_threshold →
      (check_memory_alerts cfg clock [p] fraction st k).alerts = []) ∧
    (p.cpu_percent = none → 0 < cfg.cpu_alert_threshold →
      (check_cpu_alerts cfg clock [p] st k).alerts = []) := by
  constructor
  · intro hmem hthr
    have hbr : ¬ (p.memory_percent.getD 0 > cfg.alert_threshold) := by
      rw [hmem]
      simp
      linarith
    by_cases hf : fraction > 85 <;>
      simp [check_memory_alerts, checkMemLoop, hbr, hf]
  · intro hcpu hthr
    have hz : normalize_cpu_usage cfg.cpu_count (some (p.cpu_percent.getD 0)) = 0 := by
      rw [hcpu]
      exact normalize_some_zero cfg.cpu_count
    have hbr : ¬ (normalize_cpu_usage cfg.cpu_count (some (p.cpu_percent.getD 0)) >
        cfg.cpu_alert_threshold) := by
      rw [hz]
      linarith
    simp [check_cpu_alerts, checkCpuLoop, hbr]

/-- C10 witness: a process with both readings absent yields no memory
record (threshold 2) and no CPU record (threshold 15). -/
theorem absent_metric_no_alert_witness :
    (check_memory_alerts ⟨2, 15, 30, 4⟩ (fun _ => 100)
        [⟨9, "ghost", none, none, none⟩] 50 [] 0).alerts = [] ∧
      (check_cpu_alerts ⟨2, 15, 30, 4⟩ (fun _ => 100)
        [⟨9, "ghost", none, none, none⟩] [] 0).alerts = [] :=
  ⟨(absent_metric_no_alert ⟨2, 15, 30, 4⟩ (fun _ => 100)
      ⟨9, "ghost", none, none, none⟩ [] 0 50).1 rfl (by norm_num),
    (absent_metric_no_alert ⟨2, 15, 30, 4⟩ (fun _ => 100)
      ⟨9, "ghost", none, none, none⟩ [] 0 50).2 rfl (by norm_num)⟩

/-- The per-process loop of `check_memory_alerts` never touches the
`"system_memory"` cooldown entry (process keys are never the system
key). -/
theorem checkMemLoop_preserves_system (cfg : Config) (clock : Nat → ℚ) :
    ∀ (procs : List ProcInfo) (st : GateState) (k : Nat),
      lookupKey (checkMemLoop cfg clock procs st k).2.1 "system_memory" =
        lookupKey st "system_memory" := by
  intro procs
  induction procs with
  | nil => intro st k; simp [checkMemLoop]
  | cons p rest ih =>
    intro st k
    simp only [checkMemLoop]
    by_cases hbr : p.memory_percent.getD 0 > cfg.alert_threshold
    · rw [if_pos hbr]
      have hpres : lookupKey
          (should_alert cfg.cooldown_period (clock k) (memKey p.pid p.name) st).2
          "system_memory" = lookupKey st "system_memory" :=
        should_alert_preserves_other cfg.cooldown_period (clock k) st
          (memKey_ne_system p.pid p.name)
      by_cases hadm :
          (should_alert cfg.cooldown_period (clock k) (memKey p.pid p.name) st).1 = true
      · rw [if_pos hadm]
        simp only []
        rw [ih _ (k + 1), hpres]
      · rw [if_neg hadm]
        rw [ih _ (k + 1), hpres]
    · rw [if_neg hbr]
      exact ih st k

/-- C3 counterexample: with aggregate memory at 90 (> 85), a fresh
gate and an empty process list, `check_memory_alerts` dispatches the
system-critical notification — but the returned alert-record list is
empty: the system branch only prints and calls `show_notification`; no
AlertRecord with key `"system_memory"` (or any other) is created, so
"exactly one system-level AlertRecord is emitted" fails (zero are). -/
theorem system_memory_alert_counterexample :
    (check_memory_alerts ⟨2, 15, 30, 4⟩ (fun _ => 0) [] 90 [] 0).system_notified
        = true ∧
      (check_memory_alerts ⟨2, 15, 30, 4⟩ (fun _ => 0) [] 90 [] 0).alerts = [] := by
  constructor <;>
    simp [check_memory_alerts, checkMemLoop, should_alert, lookupKey, setKey] <;>
    norm_num

/-- C3 (amended): whenever the aggregate system memory fraction
exceeds 85 (e.g. equals 90) and the `"system_memory"` key has no prior
cooldown entry, `check_memory_alerts` dispatches exactly one
system-level notification, for every process list and every state of
the process-level keys (process admissions in the same pass cannot
consume or block the system key, whose cooldown entry no process key
ever aliases); no AlertRecord is appended for it — the system alert is
notification-only. -/
theorem system_memory_alert_spec (cfg : Config) (clock : Nat → ℚ)
    (procs : List ProcInfo) (st : GateState) (k : Nat) (fraction : ℚ)
    (hcrit : fraction > 85)
    (hfresh : lookupKey st "system_memory" = none) :
    (check_memory_alerts cfg clock procs fraction st k).system_notified = true ∧
      ∀ r ∈ (check_memory_alerts cfg clock procs fraction st k).alerts,
        memKey r.pid r.process_name ≠ "system_memory" := by
  constructor
  · unfold check_memory_alerts
    rw [if_pos hcrit]
    show (should_alert cfg.cooldown_period _ "system_memory" _).1 = true
    have hpres := checkMemLoop_preserves_system cfg clock procs st k
    rw [hfresh] at hpres
    unfold should_alert
    rw [hpres]
  · intro r _
    exact memKey_ne_system r.pid r.process_name

/-- C3 witness: fraction 90, fresh gate, one breaching process — the
system notification is dispatched even though the process alert was
admitted in the same pass (independent keys). -/
theorem system_memory_alert_spec_witness :
    (check_memory_alerts ⟨2, 15, 30, 4⟩ (fun _ => 0)
        [⟨7, "chrome", some 5, none, none⟩] 90 [] 0).system_notified = true :=
  (system_memory_alert_spec ⟨2, 15, 30, 4⟩ (fun _ => 0)
    [⟨7, "chrome", some 5, none, none⟩] [] 0 90 (by norm_num) rfl).1

/-- If the cooldown entry for `K` holds a clock reading and every pair
of clock readings is closer than the cooldown period, the memory loop
emits no record for `K` and leaves the entry unchanged. -/
theorem checkMemLoop_locked (cfg : Config) (clock : Nat → ℚ) (K : String)
    (hspan : ∀ i j : Nat, clock j - clock i < cfg.cooldown_period) :
    ∀ (procs : List ProcInfo) (st : GateState) (k i0 : Nat),
      lookupKey st K = some (clock i0) →
      (checkMemLoop cfg clock procs st k).1.countP
          (fun r => decide (memKey r.pid r.process_name = K)) = 0 ∧
        lookupKey (checkMemLoop cfg clock procs st k).2.1 K = some (clock i0) := by
  intro procs
  induction procs with
  | nil => intro st k i0 h; exact ⟨by simp [checkMemLoop], h⟩
  | cons p rest ih =>
    intro st k i0 hst
    simp only [checkMemLoop]
    by_cases hbr : p.memory_percent.getD 0 > cfg.alert_threshold
    · by_cases hK : memKey p.pid p.name = K
      · have hstep : should_alert cfg.cooldown_period (clock k)
            (memKey p.pid p.name) st = (false, st) := by
          rw [hK]
          unfold should_alert
          rw [hst]
          simp [hspan i0 k]
        simp only [if_pos hbr, hstep]
        exact ih st (k + 1) i0 hst
      · have hpres : lookupKey
            (should_alert cfg.cooldown_period (clock k) (memKey p.pid p.name) st).2 K
            = some (clock i0) := by
          rw [should_alert_preserves_other cfg.cooldown_period (clock k) st hK]
          exact hst
        by_cases hadm : (should_alert cfg.cooldown_period (clock k)
            (memKey p.pid p.name) st).1 = true
        · simp only [if_pos hbr, if_pos hadm]
          have ihr := ih _ (k + 1) i0 hpres
          refine ⟨?_, ihr.2⟩
          simp only [List.countP_cons]
          simp [hK, ihr.1]
        · simp only [if_pos hbr, if_neg hadm]
          exact ih _ (k + 1) i0 hpres
    · simp only [if_neg hbr]
      exact ih st k i0 hst

/-- Within one memory pass whose clock readings all lie closer together
than the cooldown period, at most one record is emitted per key: the
timestamp is written at the moment of emission, so a second occurrence
of the same key in the pass is suppressed. -/
theorem checkMemLoop_count (cfg : Config) (clock : Nat → ℚ) (K : String)
    (hspan : ∀ i j : Nat, clock j - clock i < cfg.cooldown_period) :
    ∀ (procs : List ProcInfo) (st : GateState) (k : Nat),
      (checkMemLoop cfg clock procs st k).1.countP
        (fun r => decide (memKey r.pid r.process_name = K)) ≤ 1 := by
  intro procs
  induction procs with
  | nil => intro st k; simp [checkMemLoop]
  | cons p rest ih =>
    intro st k
    simp only [checkMemLoop]
    by_cases hbr : p.memory_percent.getD 0 > cfg.alert_threshold
    · by_cases hadm : (should_alert cfg.cooldown_period (clock k)
          (memKey p.pid p.name) st).1 = true
      · simp only [if_pos hbr, if_pos hadm, List.countP_cons]
        by_cases hK : memKey p.pid p.name = K
        · have heq : should_alert cfg.cooldown_period (clock k)
              (memKey p.pid p.name) st
              = (true, (should_alert cfg.cooldown_period (clock k)
                  (memKey p.pid p.name) st).2) := by
            rw [← hadm]
          have hlk : lookupKey (should_alert cfg.cooldown_period (clock k)
              (memKey p.pid p.name) st).2 K = some (clock k) := by
            rw [← hK]
            exact should_alert_admit_lookup heq
          have hzero := (checkMemLoop_locked cfg clock K hspan rest _ (k + 1) k hlk).1
          rw [hzero]
          simp [hK]
        · simp [hK]
          exact ih _ (k + 1)
      · simp only [if_pos hbr, if_neg hadm]
        exact ih _ (k + 1)
    · simp only [if_neg hbr]
      exact ih st k

/-- CPU-loop analogue of `checkMemLoop_locked`. -/
theorem checkCpuLoop_locked (cfg : Config) (clock : Nat → ℚ) (K : String)
    (hspan : ∀ i j : Nat, clock j - clock i < cfg.cooldown_period) :
    ∀ (procs : List ProcInfo) (st : GateState) (k i0 : Nat),
      lookupKey st K = some (clock i0) →
      (checkCpuLoop cfg clock procs st k).1.countP
          (fun r => decide (cpuKey r.pid r.process_name = K)) = 0 ∧
        lookupKey (checkCpuLoop cfg clock procs st k).2.1 K = some (clock i0) := by
  intro procs
  induction procs with
  | nil => intro st k i0 h; exact ⟨by simp [checkCpuLoop], h⟩
  | cons p rest ih =>
    intro st k i0 hst
    simp only [checkCpuLoop]
    by_cases hbr : normalize_cpu_usage cfg.cpu_count (some (p.cpu_percent.getD 0)) >
        cfg.cpu_alert_threshold ∧ strToLower p.name ≠ "system idle process"
    · by_cases hK : cpuKey p.pid p.name = K
      · have hstep : should_alert cfg.cooldown_period (clock k)
            (cpuKey p.pid p.name) st = (false, st) := by
          rw [hK]
          unfold should_alert
          rw [hst]
          simp [hspan i0 k]
        simp only [if_pos hbr, hstep]
        exact ih st (k + 1) i0 hst
      · have hpres : lookupKey
            (should_alert cfg.cooldown_period (clock k) (cpuKey p.pid p.name) st).2 K
            = some (clock i0) := by
          rw [should_alert_preserves_other cfg.cooldown_period (clock k) st hK]
          exact hst
        by_cases hadm : (should_alert cfg.cooldown_period (clock k)
            (cpuKey p.pid p.name) st).1 = true
        · simp only [if_pos hbr, if_pos hadm]
          have ihr := ih _ (k + 1) i0 hpres
          refine ⟨?_, ihr.2⟩
          simp only [List.countP_cons]
          simp [hK, ihr.1]
        · simp only [if_pos hbr, if_neg hadm]
          exact ih _ (k + 1) i0 hpres
    · simp only [if_neg hbr]
      exact ih st k i0 hst

/-- CPU-loop analogue of `checkMemLoop_count`. -/
theorem checkCpuLoop_count (cfg : Config) (clock : Nat → ℚ) (K : String)
    (hspan : ∀ i j : Nat, clock j - clock i < cfg.cooldown_period) :
    ∀ (procs : List ProcInfo) (st : GateState) (k : Nat),
      (checkCpuLoop cfg clock procs st k).1.countP
        (fun r => decide (cpuKey r.pid r.process_name = K)) ≤ 1 := by
  intro procs
  induction procs with
  | nil => intro st k; simp [checkCpuLoop]
  | cons p rest ih =>
    intro st k
    simp only [checkCpuLoop]
    by_cases hbr : normalize_cpu_usage cfg.cpu_count (some (p.cpu_percent.getD 0)) >
        cfg.cpu_alert_threshold ∧ strToLower p.name ≠ "system idle process"
    · by_cases hadm : (should_alert cfg.cooldown_period (clock k)
          (cpuKey p.pid p.name) st).1 = true
      · simp only [if_pos hbr, if_pos hadm, List.countP_cons]
        by_cases hK : cpuKey p.pid p.name = K
        · have heq : should_alert cfg.cooldown_period (clock k)
              (cpuKey p.pid p.name) st
              = (true, (should_alert cfg.cooldown_period (clock k)
                  (cpuKey p.pid p.name) st).2) := by
            rw [← hadm]
          have hlk : lookupKey (should_alert cfg.cooldown_period (clock k)
              (cpuKey p.pid p.name) st).2 K = some (clock k) := by
            rw [← hK]
            exact should_alert_admit_lookup heq
          have hzero := (checkCpuLoop_locked cfg clock K hspan rest _ (k + 1) k hlk).1
          rw [hzero]
          simp [hK]
        · simp [hK]
          exact ih _ (k + 1)
      · simp only [if_pos hbr, if_neg hadm]
        exact ih _ (k + 1)
    · simp only [if_neg hbr]
      exact ih st k

theorem check_memory_alerts_alerts (cfg : Config) (clock : Nat → ℚ)
    (procs : List ProcInfo) (fraction : ℚ) (st : GateState) (k : Nat) :
    (check_memory_alerts cfg clock procs fraction st k).alerts =
      (checkMemLoop cfg clock procs st k).1 := by
  unfold check_memory_alerts
  by_cases h : fraction > 85 <;> simp [h]

/-- C6 counterexample: the claim fails as stated when the cooldown
period is 0.  With `cooldown_period = 0`, a snapshot that lists the
same (pid, name) twice, and all gate calls at time 0, the second
occurrence is *not* suppressed (`0 - 0 < 0` is false, so the gate
admits again): one pass over one snapshot emits two records for the
key `memKey 1 "python"`. -/
theorem single_pass_dedup_counterexample :
    (check_memory_alerts ⟨2, 15, 0, 4⟩ (fun _ => 0)
        [⟨1, "python", some 5, none, none⟩, ⟨1, "python", some 5, none, none⟩]
        50 [] 0).alerts.countP
      (fun r => decide (memKey r.pid r.process_name = memKey 1 "python")) = 2 := by
  norm_num [check_memory_alerts, checkMemLoop, should_alert, lookupKey, setKey,
    List.countP_cons]

/-- C6 (amended): in a single evaluation pass over one snapshot (one
call of `check_memory_alerts` or `check_cpu_alerts`) whose `time.time()`
readings all lie closer together than the cooldown period — in
particular the cooldown period must be positive — at most one record is
emitted per key: the cooldown timestamp is written at the moment of
emission, so a second occurrence of the same key in the same pass is
suppressed. -/
theorem single_pass_at_most_one_per_key (cfg : Config) (clock : Nat → ℚ)
    (K : String) (fraction : ℚ)
    (hspan : ∀ i j : Nat, clock j - clock i < cfg.cooldown_period)
    (procs : List ProcInfo) (st : GateState) (k : Nat) :
    (check_memory_alerts cfg clock procs fraction st k).alerts.countP
        (fun r => decide (memKey r.pid r.process_name = K)) ≤ 1 ∧
      (check_cpu_alerts cfg clock procs st k).alerts.countP
        (fun r => decide (cpuKey r.pid r.process_name = K)) ≤ 1 := by
  constructor
  · rw [check_memory_alerts_alerts]
    exact checkMemLoop_count cfg clock K hspan procs st k
  · exact checkCpuLoop_count cfg clock K hspan procs st k

/-- C6 witness: with cooldown 30 and all readings at time 0, the
duplicated snapshot of the counterexample emits at most one record per
key in each family. -/
theorem single_pass_at_most_one_per_key_witness :
    (check_memory_alerts ⟨2, 15, 30, 4⟩ (fun _ => 0)
        [⟨1, "python", some 5, none, none⟩, ⟨1, "python", some 5, none, none⟩]
        50 [] 0).alerts.countP
      (fun r => decide (memKey r.pid r.process_name = memKey 1 "python")) ≤ 1 :=
  (single_pass_at_most_one_per_key ⟨2, 15, 30, 4⟩ (fun _ => 0)
    (memKey 1 "python") 50 (by intro i j; norm_num)
    [⟨1, "python", some 5, none, none⟩, ⟨1, "python", some 5, none, none⟩] [] 0).1

/-- C5 counterexample: `generate_report` has no `try/except` around its
file writes.  With a failing memory-log write, the call ends in
`Except.error` (the exception propagates out of `generate_report`; the
callers — the tail of `run_monitor` and the `__main__` block — catch
nothing, so the process terminates with a traceback) and the CPU log
file is never written, contradicting "the error does not escalate to
process termination". -/
theorem report_failure_counterexample :
    generate_report [⟨"python", 1, 5, 0⟩] [] (.error "disk full") (.ok ()) =
      (⟨1, 0, [⟨"python", 1, 5, 0⟩], []⟩, [], .error "disk full") := by
  rfl

/-- C5 (amended): if a report-file write fails at shutdown, the
exception propagates uncaught out of `generate_report` (terminating the
process with a visible traceback carrying the error); the summary of
the in-memory alert history was already printed, the in-memory logs
themselves are inputs the function never modifies, and any file whose
write failed — and every later file — is simply not written. -/
theorem report_failure_propagates (memLog : List MemAlert)
    (cpuLog : List CpuAlert) (w2 : Except String Unit) (e : String) :
    (generate_report memLog cpuLog (.error e) w2 =
      (⟨memLog.length, cpuLog.length, memLog.drop (memLog.length - 5),
        cpuLog.drop (cpuLog.length - 5)⟩, [], .error e)) ∧
    (generate_report memLog cpuLog (.ok ()) (.error e) =
      (⟨memLog.length, cpuLog.length, memLog.drop (memLog.length - 5),
        cpuLog.drop (cpuLog.length - 5)⟩, ["memory_alerts.json"], .error e)) := by
  exact ⟨rfl, rfl⟩

/-- Display separation: the next toast starts no earlier than
`duration + 1` after the previous one started (the completion timer's
delay). -/
def sepDisp (a b : ℚ × ℚ) : Prop := a.1 + a.2 + 1 ≤ b.1

/-- Invariant of the queue path, relative to the current time `now`:
displays are separated; the flag mirrors the pending timer; a pending
timer belongs to the last display and has not yet fired; with no timer
pending the last display's slot has already been released; an idle
dispatcher has an empty queue; all logged and queued durations are
nonnegative. -/
structure DispInv (now : ℚ) (s : DispState) : Prop where
  chain : s.displays.Chain' sepDisp
  flag : s.is_showing_notification = true ↔ s.timer.isSome
  timer_sched : ∀ tf, s.timer = some tf → now ≤ tf ∧
    ∃ x, s.displays.getLast? = some x ∧ tf = x.1 + x.2 + 1
  idle_past : s.timer = none → ∀ x, s.displays.getLast? = some x →
    x.1 + x.2 + 1 ≤ now
  idle_queue : s.is_showing_notification = false → s.notification_queue = []
  dur_displays : ∀ d ∈ s.displays, 0 ≤ d.2
  dur_queue : ∀ r ∈ s.notification_queue, 0 ≤ r.duration

theorem dispInv_init : DispInv 0 initDisp := by
  constructor <;> simp [initDisp]

theorem chain_sep_head :
    ∀ (t : List (ℚ × ℚ)) (a : ℚ × ℚ), (∀ d ∈ t, 0 ≤ d.2) →
      (a :: t).Chain' sepDisp → ∀ b ∈ t, a.1 + a.2 + 1 ≤ b.1 := by
  intro t
  induction t with
  | nil => intro a _ _ b hb; simp at hb
  | cons c t ih =>
    intro a hd hc b hb
    have hac : sepDisp a c := (List.chain'_cons.mp hc).1
    rcases List.mem_cons.mp hb with rfl | hb
    · exact hac
    · have hcb := ih c (fun d hdm => hd d (List.mem_cons_of_mem c hdm))
        (List.chain'_cons.mp hc).2 b hb
      have hc2 : 0 ≤ c.2 := hd c (List.mem_cons_self c t)
      unfold sepDisp at hac hcb
      linarith

/-- Separated displays with nonnegative durations never overlap: each
toast ends strictly before any later one starts. -/
theorem chain_sep_pairwise :
    ∀ (l : List (ℚ × ℚ)), (∀ d ∈ l, 0 ≤ d.2) → l.Chain' sepDisp →
      l.Pairwise fun a b => a.1 + a.2 < b.1 := by
  intro l
  induction l with
  | nil => intro _ _; exact List.Pairwise.nil
  | cons a t ih =>
    intro hd hc
    refine List.Pairwise.cons ?_ (ih (fun d hdm => hd d (List.mem_cons_of_mem a hdm))
      (List.chain'_cons'.mp hc).2)
    intro b hb
    have := chain_sep_head t a (fun d hdm => hd d (List.mem_cons_of_mem a hdm)) hc b hb
    linarith

theorem dispInv_send (now t : ℚ) (req : NotifReq) (s : DispState)
    (inv : DispInv now s) (hnt : now ≤ t)
    (htf : ∀ tf, s.timer = some tf → t ≤ tf)
    (hdur : 0 ≤ req.duration) :
    DispInv t (show_notification t req s) ∧
      (show_notification t req s).shown_reqs ++
          (show_notification t req s).notification_queue =
        s.shown_reqs ++ s.notification_queue ++ [req] := by
  unfold show_notification process_notification_queue
  by_cases hshow : s.is_showing_notification
  · simp only [hshow, if_true]
    refine ⟨⟨inv.chain, ?_, ?_, ?_, ?_, inv.dur_displays, ?_⟩, ?_⟩
    · simpa using inv.flag.mp hshow
    · intro tf h
      exact ⟨htf tf h, (inv.timer_sched tf h).2⟩
    · intro h
      exfalso
      have := inv.flag.mp hshow
      rw [h] at this
      simp at this
    · intro h
      simp at h
    · intro r hr
      rcases List.mem_append.mp hr with hr | hr
      · exact inv.dur_queue r hr
      · rw [List.mem_singleton.mp hr]
        exact hdur
    · simp
  · have hq : s.notification_queue = [] :=
      inv.idle_queue (Bool.not_eq_true _ ▸ hshow)
    have htnone : s.timer = none := by
      cases htm : s.timer with
      | none => rfl
      | some tf =>
        exfalso
        apply hshow
        exact inv.flag.mpr (by rw [htm]; rfl)
    simp only [hshow, if_false, hq, List.nil_append, Bool.false_eq_true]
    refine ⟨⟨?_, by simp, ?_, ?_, ?_, ?_, ?_⟩, ?_⟩
    · rw [List.chain'_append]
      refine ⟨inv.chain, List.chain'_singleton _, ?_⟩
      intro x hx y hy
      simp only [List.head?_cons, Option.mem_def, Option.some.injEq] at hy
      have hpast := inv.idle_past htnone x (Option.mem_def.mp hx)
      rw [← hy]
      show x.1 + x.2 + 1 ≤ t
      linarith
    · intro tf h
      simp only [Option.some.injEq] at h
      constructor
      · rw [← h]; linarith
      · exact ⟨(t, req.duration), by simp [List.getLast?_concat], by rw [← h]⟩
    · intro h
      exact absurd h (by simp)
    · intro h
      simp at h
    · intro d hd
      rcases List.mem_append.mp hd with hd | hd
      · exact inv.dur_displays d hd
      · rw [List.mem_singleton.mp hd]
        exact hdur
    · intro r hr
      simp at hr
    · simp

theorem dispInv_timer (now t : ℚ) (s : DispState)
    (inv : DispInv now s) (hsched : s.timer = some t) :
    DispInv t (notification_completed t s) ∧
      (notification_completed t s).shown_reqs ++
          (notification_completed t s).notification_queue =
        s.shown_reqs ++ s.notification_queue := by
  have hsome := inv.timer_sched t hsched
  obtain ⟨hnt, x, hlast, hteq⟩ := hsome
  unfold notification_completed process_notification_queue
  cases hq : s.notification_queue with
  | nil =>
    simp only [if_neg (by simp : ¬ (false = true)), hq]
    refine ⟨⟨inv.chain, by simp, ?_, ?_, ?_, inv.dur_displays, ?_⟩, by simp [hq]⟩
    · intro tf h
      simp at h
    · intro _ y hy
      have : y = x := by
        rw [hlast] at hy
        exact (Option.some.inj hy).symm
      rw [this, ← hteq]
    · intro _
      rfl
    · intro r hr
      simp at hr
  | cons req rest =>
    simp only [if_neg (by simp : ¬ (false = true)), hq]
    have hdreq : 0 ≤ req.duration :=
      inv.dur_queue req (by rw [hq]; exact List.mem_cons_self req rest)
    refine ⟨⟨?_, by simp, ?_, ?_, ?_, ?_, ?_⟩, ?_⟩
    · rw [List.chain'_append]
      refine ⟨inv.chain, List.chain'_singleton _, ?_⟩
      intro a ha y hy
      simp only [List.head?_cons, Option.mem_def, Option.some.injEq] at hy
      have : a = x := by
        rw [hlast] at ha
        exact (Option.some.inj (Option.mem_def.mp ha)).symm
      rw [this, ← hy]
      show x.1 + x.2 + 1 ≤ t
      rw [← hteq]
    · intro tf h
      simp only [Option.some.injEq] at h
      constructor
      · rw [← h]; linarith
      · exact ⟨(t, req.duration), by simp [List.getLast?_concat], by rw [← h]⟩
    · intro h
      simp at h
    · intro h
      simp at h
    · intro d hd
      rcases List.mem_append.mp hd with hd | hd
      · exact inv.dur_displays d hd
      · rw [List.mem_singleton.mp hd]
        exact hdreq
    · intro r hr
      exact inv.dur_queue r (by rw [hq]; exact List.mem_cons_of_mem req hr)
    · simp [hq]

/-- Running any valid queue-only trace (no consolidated toasts, all
requested durations nonnegative) preserves the dispatcher invariant
and appends exactly the sent requests to shown-or-queued, in order. -/
theorem dispRun_inv :
    ∀ (tr : List (ℚ × DispEvent)) (now : ℚ) (s : DispState),
      validTrace now s tr = true →
      (∀ p ∈ tr, isConsolidatedEv p.2 = false) →
      (∀ p ∈ tr, ∀ r : NotifReq, p.2 = DispEvent.send r → 0 ≤ r.duration) →
      DispInv now s →
      (∃ endT, DispInv endT (dispRun s tr)) ∧
        (dispRun s tr).shown_reqs ++ (dispRun s tr).notification_queue =
          s.shown_reqs ++ s.notification_queue ++ sentReqs tr := by
  intro tr
  induction tr with
  | nil =>
    intro now s _ _ _ inv
    exact ⟨⟨now, inv⟩, by simp [dispRun, sentReqs]⟩
  | cons p rest ih =>
    intro now s hvalid hqonly hdur inv
    obtain ⟨t, e⟩ := p
    simp only [validTrace, Bool.and_eq_true, decide_eq_true_eq] at hvalid
    obtain ⟨⟨hnt, hcond⟩, hrest⟩ := hvalid
    cases e with
    | send req =>
      have htf : ∀ tf, s.timer = some tf → t ≤ tf := by
        intro tf h
        rw [h] at hcond
        simpa using hcond
      have hd : 0 ≤ req.duration :=
        hdur (t, .send req) (List.mem_cons_self _ _) req rfl
      have hstep := dispInv_send now t req s inv hnt htf hd
      have ihr := ih t (show_notification t req s) hrest
        (fun q hq => hqonly q (List.mem_cons_of_mem _ hq))
        (fun q hq => hdur q (List.mem_cons_of_mem _ hq))
        hstep.1
      refine ⟨ihr.1, ?_⟩
      simp only [dispRun, dispStep]
      rw [ihr.2, hstep.2]
      simp [sentReqs]
    | sendConsolidated alerts =>
      exact absurd (hqonly (t, .sendConsolidated alerts)
        (List.mem_cons_self _ _)) (by simp [isConsolidatedEv])
    | timerFired =>
      have hsched : s.timer = some t := by
        cases htm : s.timer with
        | none => rw [htm] at hcond; simp at hcond
        | some tf =>
          rw [htm] at hcond
          simp at hcond
          rw [hcond]
      have hstep := dispInv_timer now t s inv hsched
      have ihr := ih t (notification_completed t s) hrest
        (fun q hq => hqonly q (List.mem_cons_of_mem _ hq))
        (fun q hq => hdur q (List.mem_cons_of_mem _ hq))
        hstep.1
      refine ⟨ihr.1, ?_⟩
      simp only [dispRun, dispStep]
      rw [ihr.2, hstep.2]
      simp [sentReqs]

/-- C4 counterexample: consolidated alert toasts bypass the queue.
A `show_notification` at time 0 starts a toast of duration 5 (slot
busy until 6), and a consolidated notification dispatched back-to-back
at time 0 calls `show_toast` directly — both toasts are on screen at
time 0, so two notifications are "currently displayed" simultaneously
and the second was displayed before the first's duration elapsed. -/
theorem notification_overlap_counterexample :
    validTrace 0 initDisp
        [((0 : ℚ), DispEvent.send ⟨"Process Monitor Started", "Monitoring active", 5⟩),
          ((0 : ℚ), DispEvent.sendConsolidated
            [⟨"a", 1, 3, 0⟩, ⟨"b", 2, 4, 0⟩])] = true ∧
      (dispRun initDisp
        [((0 : ℚ), DispEvent.send ⟨"Process Monitor Started", "Monitoring active", 5⟩),
          ((0 : ℚ), DispEvent.sendConsolidated
            [⟨"a", 1, 3, 0⟩, ⟨"b", 2, 4, 0⟩])]).displays = [(0, 5), (0, 7)] ∧
      activeAt 0 (0, 5) ∧ activeAt 0 (0, 7) := by
  refine ⟨?_, ?_, ?_, ?_⟩
  · norm_num [validTrace, dispStep, show_notification, process_notification_queue,
      initDisp, show_consolidated_notification]
  · norm_num [dispRun, dispStep, show_notification, process_notification_queue,
      initDisp, show_consolidated_notification]
  · exact ⟨le_refl 0, by norm_num [activeAt]⟩
  · exact ⟨le_refl 0, by norm_num [activeAt]⟩

/-- C4 (amended): notification requests that go through
`show_notification` are serialized: in every valid trace without
consolidated toasts, requests queue in FIFO order (the displayed
requests are a prefix of the submitted ones, in submission order), each
display starts at least `duration + 1` after the previous display
started, and (for nonnegative durations) no two queue-path toasts are
ever on screen together.  Consolidated alert toasts bypass the queue
entirely and can overlap anything (see the counterexample). -/
theorem queue_path_serialized (tr : List (ℚ × DispEvent))
    (hvalid : validTrace 0 initDisp tr = true)
    (hqonly : ∀ p ∈ tr, isConsolidatedEv p.2 = false)
    (hdur : ∀ p ∈ tr, ∀ r : NotifReq, p.2 = DispEvent.send r → 0 ≤ r.duration) :
    (dispRun initDisp tr).displays.Chain' sepDisp ∧
      (dispRun initDisp tr).displays.Pairwise (fun a b => a.1 + a.2 < b.1) ∧
      (dispRun initDisp tr).shown_reqs =
        (sentReqs tr).take (dispRun initDisp tr).shown_reqs.length := by
  have h := dispRun_inv tr 0 initDisp hvalid hqonly hdur dispInv_init
  obtain ⟨⟨endT, inv⟩, heq⟩ := h
  refine ⟨inv.chain, chain_sep_pairwise _ inv.dur_displays inv.chain, ?_⟩
  have hsent : (dispRun initDisp tr).shown_reqs ++
      (dispRun initDisp tr).notification_queue = sentReqs tr := by
    simpa [initDisp] using heq
  rw [← hsent, List.take_left]

/-- The concrete trace used in the C4 witness: two requests, the second
submitted exactly when the first's completion timer fires. -/
def qtrace : List (ℚ × DispEvent) :=
  [((0 : ℚ), DispEvent.send ⟨"A", "a", 5⟩),
    ((6 : ℚ), DispEvent.timerFired),
    ((6 : ℚ), DispEvent.send ⟨"B", "b", 5⟩)]

/-- C4 witness: on `qtrace` the queue path is serialized — separated
displays, no overlap, FIFO prefix. -/
theorem queue_path_serialized_witness :
    (dispRun initDisp qtrace).displays.Chain' sepDisp ∧
      (dispRun initDisp qtrace).displays.Pairwise (fun a b => a.1 + a.2 < b.1) ∧
      (dispRun initDisp qtrace).shown_reqs =
        (sentReqs qtrace).take (dispRun initDisp qtrace).shown_reqs.length := by
  apply queue_path_serialized qtrace
  · norm_num [qtrace, validTrace, dispStep, show_notification,
      notification_completed, process_notification_queue, initDisp]
  · intro p hp
    fin_cases hp <;> simp [isConsolidatedEv]
  · intro p hp r hr
    fin_cases hp
    · cases hr; norm_num
    · simp at hr
    · cases hr; norm_num
